import Mathlib

/-!
Verification of the HomeConnectAPI client (homebridge-homeconnect).

This file shallowly embeds the token-management and HTTP-client layer of
the `HomeConnectAPI` class: the saved authorisation record, the error
classification performed by `requestRaw`, the rate limiter (`retryAfter`),
the appliance-facade retry loop (`requestAppliances`), the scope checker
(`hasScope`), the readiness gate (`waitUntilAuthorised`), the event-stream
line parser used by `getEvents`, and the completion handler of
`requestStreamRaw`.  Timestamps are integers in milliseconds, mirroring
`Date.now()`.  JavaScript truthiness of optional strings is modelled
explicitly (`undefined` and the empty string are falsy).
-/

namespace HomeConnect

/-- JavaScript truthiness for an optional string field: `undefined` and the
empty string are falsy, every other string is truthy. -/
def isTruthyStr : Option String → Bool
  | some s => !(s == "")
  | none => false

/-- The per-client saved authorisation record created by `tokenSave`:
`refreshToken`, `accessToken` (deleted by `tokenInvalidate`, hence optional),
`accessExpires` (absolute ms timestamp) and the granted `scopes`. -/
structure AuthRecord where
  refreshToken : Option String
  accessToken : Option String
  accessExpires : Int
  scopes : List String
deriving Repr, DecidableEq

/-- The mutable state of a `HomeConnectAPI` instance that the claims are
about: `savedAuth` is the entry `savedAuth[clientID]` (absent once
`authInvalidate` deletes it), `scopes` is `this.scopes`, and
`earliestRetry` is the rate-limit timestamp in milliseconds. -/
structure ClientState where
  savedAuth : Option AuthRecord
  scopes : List String
  earliestRetry : Int
deriving Repr, DecidableEq

/-- The method `tokenInvalidate`: if a record is saved for the client id, delete only
its `accessToken` property (the record itself, with its `refreshToken`,
`accessExpires` and `scopes`, stays saved).  The accompanying
`wake('refresh', ...)` only cancels a sleep and is not part of the state. -/
def tokenInvalidate (st : ClientState) : ClientState :=
  { st with savedAuth := st.savedAuth.map fun a => { a with accessToken := none } }

/-- The method `authInvalidate`: delete the whole saved authorisation record for the
client id (`delete this.savedAuth[this.clientID]`). -/
def authInvalidate (st : ClientState) : ClientState :=
  { st with savedAuth := none }

/-- The method `retryAfter(delaySeconds)`: compute `Date.now() + delaySeconds * 1000`
and move `earliestRetry` forward to it, but never backwards. -/
def retryAfter (st : ClientState) (now : Int) (delaySeconds : Int) : ClientState :=
  let earliest := now + delaySeconds * 1000
  if st.earliestRetry < earliest then { st with earliestRetry := earliest } else st

/-- The parts of a `StatusCodeError` response that `requestRaw`'s `catch`
block inspects: `body.error_description` (selects the OAuth branch when
truthy), `body.error` when it is an OAuth string code, `body.error.key`
when `body.error` is an appliance-API error object, and the
`retry-after` response header in seconds. -/
structure ErrResponse where
  error_description : Option String
  errorCode : Option String
  errorKey : Option String
  retryAfterHeader : Option Int
deriving Repr, DecidableEq

/-- Outcome of `requestRaw` on a `StatusCodeError`: `authorization_pending`
returns `null` as an ordinary value; otherwise the error is re-thrown, with
`retry` recording whether `err.retry` was set. -/
inductive RawResult where
  | nullValue
  | thrown (retry : Bool)
deriving Repr, DecidableEq

/-- The error classification of `requestRaw` (the `StatusCodeError` branch
of its `catch` block).  The OAuth branch (entered when
`body.error_description` is truthy) switches on `body.error`:
`authorization_pending` yields `null`; `access_denied` with description
`Too many requests` sets `err.retry`; `access_denied` otherwise falls
through to `invalid_grant`/`expired_token`, which call `authInvalidate`;
`unauthorized_client` also calls `authInvalidate`.  The appliance-API
branch switches on `body.error.key`: `invalid_token` calls
`tokenInvalidate`; `429` feeds the `retry-after` header to `retryAfter`
and sets `err.retry` (a missing header yields a `NaN` deadline, which
never updates `earliestRetry`). -/
def classifyStatusError (st : ClientState) (now : Int) (e : ErrResponse) :
    ClientState × RawResult :=
  if isTruthyStr e.error_description then
    match e.errorCode with
    | some "authorization_pending" => (st, RawResult.nullValue)
    | some "access_denied" =>
        if e.error_description = some "Too many requests" then
          (st, RawResult.thrown true)
        else
          (authInvalidate st, RawResult.thrown false)
    | some "invalid_grant" => (authInvalidate st, RawResult.thrown false)
    | some "expired_token" => (authInvalidate st, RawResult.thrown false)
    | some "unauthorized_client" => (authInvalidate st, RawResult.thrown false)
    | _ => (st, RawResult.thrown false)
  else
    match e.errorKey with
    | some "invalid_token" => (tokenInvalidate st, RawResult.thrown false)
    | some "429" =>
        (match e.retryAfterHeader with
         | some d => retryAfter st now d
         | none => st,
         RawResult.thrown true)
    | _ => (st, RawResult.thrown false)

/-- The flow the `authoriseClient` loop performs on its next iteration:
a full authorisation flow (device or code-grant — the `Authorizing` state)
when no record is saved, otherwise the refresh loop over the saved record. -/
inductive AuthFlowChoice where
  | fullAuthorization
  | refreshLoop
deriving Repr, DecidableEq

/-- The branch `if (!this.savedAuth[this.clientID])` at the top of the
`authoriseClient` loop. -/
def authoriseClientChoice (st : ClientState) : AuthFlowChoice :=
  if st.savedAuth.isSome then AuthFlowChoice.refreshLoop
  else AuthFlowChoice.fullAuthorization

/-- The retry delay picked by `authoriseClient`'s `catch` block, in
seconds: `REFRESH_RETRY_DELAY` (5) when a record is still saved,
`AUTH_RETRY_DELAY` (60) otherwise. -/
def authRetryDelaySeconds (st : ClientState) : Int :=
  if st.savedAuth.isSome then 5 else 60

/-- The `catch` block of `authoriseClient`: discard any access token via
`tokenInvalidate`, then choose the retry delay. -/
def authoriseCatch (st : ClientState) : ClientState × Int :=
  let st2 := tokenInvalidate st
  (st2, authRetryDelaySeconds st2)

/-- Result of `waitUntilAuthorised`: either a pre-resolved promise
(`Promise.resolve()`, the immediate branch, which performs no network
request and does not join the `authResolve` queue) or a new promise pushed
onto `this.authResolve` to be resolved by the authorisation state machine. -/
inductive WaitResult where
  | immediate
  | queued
deriving Repr, DecidableEq

/-- The method `waitUntilAuthorised`: resolve immediately when
`auth && auth.accessToken && Date.now() < auth.accessExpires`, otherwise
queue behind the authorisation state machine. -/
def waitUntilAuthorised (st : ClientState) (now : Int) : WaitResult :=
  match st.savedAuth with
  | some a =>
      if isTruthyStr a.accessToken && decide (now < a.accessExpires) then
        WaitResult.immediate
      else WaitResult.queued
  | none => WaitResult.queued

/-- The regular expression match of `hasScope`:
`/^([^-]+)-([^-]+)$/.exec(scope)`.  The match succeeds exactly when the
scope is a non-empty hyphen-free run, a single hyphen, and a non-empty
hyphen-free run; the two runs are the captured row and column. -/
def execRowColumn (s : String) : Option (String × String) :=
  let cs := s.toList
  let row := cs.takeWhile fun c => c != '-'
  match cs.dropWhile fun c => c != '-' with
  | '-' :: col =>
      if row.isEmpty then none
      else if col.isEmpty then none
      else if col.any fun c => c == '-' then none
      else some (String.mk row, String.mk col)
  | _ => none

/-- The method `hasScope`: literal membership of the requested scope in
`this.scopes` first; otherwise, when the scope matches the row-column
pattern, membership of the row or of the column component. -/
def hasScope (scopes : List String) (scope : String) : Bool :=
  if scopes.contains scope then true
  else
    match execRowColumn scope with
    | some (row, column) =>
        if scopes.contains row then true
        else if scopes.contains column then true
        else false
    | none => false

/-- The method `getAuthorisation` succeeds (returning a `Bearer` header) exactly
when the saved record holds a truthy access token; otherwise it throws. -/
def hasAccessToken (st : ClientState) : Bool :=
  match st.savedAuth with
  | some a => isTruthyStr a.accessToken
  | none => false

/-- The rate-limit gate at the top of the retry loops of
`requestAppliances` and `getEvents`: compute
`retryIn = earliestRetry - Date.now()` and sleep for it when positive, so
an attempt is issued no earlier than `earliestRetry`. -/
def issueTime (st : ClientState) (now : Int) : Int :=
  if now < st.earliestRetry then st.earliestRetry else now

/-- One entry of a response trace for the facade retry loop: the server
either answers the attempt successfully or with a `StatusCodeError`. -/
inductive Attempt where
  | ok
  | err (e : ErrResponse)
deriving Repr, DecidableEq

/-- Outcome of the facade retry loop for its caller. -/
inductive FacadeResult where
  | value
  | errorRaised
  | pending
deriving Repr, DecidableEq

/-- The retry loop of `requestAppliances`, run against a finite trace of
attempt responses: each iteration waits for the rate limiter, computes the
authorisation header (`getAuthorisation` throws — a non-retryable error —
without a truthy access token), issues the attempt, classifies any
`StatusCodeError` via `requestRaw`, loops on `err.retry`, and otherwise
returns the value or re-throws.  `pending` means the trace ran out while
the loop was still retrying. -/
def requestAppliancesRun (st : ClientState) (now : Int) :
    List Attempt → ClientState × FacadeResult
  | [] => (st, FacadeResult.pending)
  | a :: rest =>
      let t := issueTime st now
      if hasAccessToken st then
        match a with
        | Attempt.ok => (st, FacadeResult.value)
        | Attempt.err e =>
            match classifyStatusError st t e with
            | (st2, RawResult.nullValue) => (st2, FacadeResult.value)
            | (st2, RawResult.thrown true) => requestAppliancesRun st2 t rest
            | (st2, RawResult.thrown false) => (st2, FacadeResult.errorRaised)
      else (st, FacadeResult.errorRaised)

/-- Outcome of the `'complete'` handler of `requestStreamRaw`:
`done errored` means `callbackDone` ran (with a fresh `Error` — carrying
no `retry` flag — exactly when the status code is not 200);
`jsReferenceError` means evaluating the handler threw a `ReferenceError`
before `callbackDone` could run. -/
inductive StreamCompletion where
  | done (errored : Bool)
  | jsReferenceError
deriving Repr, DecidableEq

/-- The `'complete'` handler of `requestStreamRaw`, given the response
status code and `body.error.key` (when the body carries an appliance-API
error object).  The `invalid_token` case calls `tokenInvalidate`; the
`'429'` case evaluates `err.response.headers['retry-after']`, but no
variable `err` is in scope in this handler, so that evaluation throws a
`ReferenceError`: the rate limiter is never advanced and `callbackDone`
is never invoked on that path. -/
def streamCompleteHandler (st : ClientState) (statusCode : Int)
    (errorKey : Option String) : ClientState × StreamCompletion :=
  match errorKey with
  | some "invalid_token" =>
      (tokenInvalidate st, StreamCompletion.done (statusCode != 200))
  | some "429" => (st, StreamCompletion.jsReferenceError)
  | _ => (st, StreamCompletion.done (statusCode != 200))

/-- JSON values, as produced by `JSON.parse` (numbers restricted to the
integers, which covers every value the event stream carries). -/
inductive Json where
  | null
  | bool (b : Bool)
  | num (n : Int)
  | str (s : String)
  | arr (elems : List Json)
  | obj (members : List (String × Json))
deriving Repr

/-- JSON whitespace skipping. -/
def skipWs : List Char → List Char
  | c :: cs => if c = ' ' ∨ c = '\t' ∨ c = '\n' ∨ c = '\r' then skipWs cs else c :: cs
  | [] => []

/-- Parse the characters of a JSON string after its opening quote,
handling the common escapes; returns the decoded characters and the rest
of the input after the closing quote. -/
def parseStringChars : List Char → Option (List Char × List Char)
  | [] => none
  | '"' :: rest => some ([], rest)
  | '\\' :: c :: rest =>
      let esc : Option Char :=
        if c = 'n' then some '\n'
        else if c = 't' then some '\t'
        else if c = 'r' then some '\r'
        else if c = '"' then some '"'
        else if c = '\\' then some '\\'
        else if c = '/' then some '/'
        else none
      match esc with
      | some e => (parseStringChars rest).map fun p => (e :: p.1, p.2)
      | none => none
  | '\\' :: [] => none
  | c :: rest => (parseStringChars rest).map fun p => (c :: p.1, p.2)

/-- Digits of a decimal literal. -/
def takeDigits (cs : List Char) : List Char × List Char :=
  (cs.takeWhile fun c => c.isDigit, cs.dropWhile fun c => c.isDigit)

/-- Value of a run of decimal digits. -/
def digitsToNat (ds : List Char) : Nat :=
  ds.foldl (fun n c => n * 10 + (c.toNat - 48)) 0

mutual

/-- Fuel-bounded recursive-descent parser for one JSON value. -/
def parseJsonValue : Nat → List Char → Option (Json × List Char)
  | 0, _ => none
  | fuel + 1, cs =>
      match skipWs cs with
      | 'n' :: 'u' :: 'l' :: 'l' :: rest => some (Json.null, rest)
      | 't' :: 'r' :: 'u' :: 'e' :: rest => some (Json.bool true, rest)
      | 'f' :: 'a' :: 'l' :: 's' :: 'e' :: rest => some (Json.bool false, rest)
      | '"' :: rest =>
          (parseStringChars rest).map fun p => (Json.str (String.mk p.1), p.2)
      | '[' :: rest =>
          (match skipWs rest with
           | ']' :: rest2 => some (Json.arr [], rest2)
           | rest2 =>
               (parseJsonItems fuel rest2).map fun p => (Json.arr p.1, p.2))
      | '{' :: rest =>
          (match skipWs rest with
           | '}' :: rest2 => some (Json.obj [], rest2)
           | rest2 =>
               (parseJsonMembers fuel rest2).map fun p => (Json.obj p.1, p.2))
      | '-' :: rest =>
          (match takeDigits rest with
           | ([], _) => none
           | (ds, rest2) => some (Json.num (-(digitsToNat ds : Int)), rest2))
      | c :: rest =>
          if c.isDigit then
            match takeDigits (c :: rest) with
            | (ds, rest2) => some (Json.num (digitsToNat ds : Int), rest2)
          else none
      | [] => none

/-- Comma-separated JSON array elements up to the closing bracket. -/
def parseJsonItems : Nat → List Char → Option (List Json × List Char)
  | 0, _ => none
  | fuel + 1, cs =>
      match parseJsonValue fuel cs with
      | none => none
      | some (v, rest) =>
          match skipWs rest with
          | ']' :: rest2 => some ([v], rest2)
          | ',' :: rest2 =>
              (parseJsonItems fuel rest2).map fun p => (v :: p.1, p.2)
          | _ => none

/-- Comma-separated JSON object members up to the closing brace. -/
def parseJsonMembers : Nat → List Char → Option (List (String × Json) × List Char)
  | 0, _ => none
  | fuel + 1, cs =>
      match skipWs cs with
      | '"' :: rest =>
          match parseStringChars rest with
          | none => none
          | some (key, rest2) =>
              match skipWs rest2 with
              | ':' :: rest3 =>
                  (match parseJsonValue fuel rest3 with
                   | none => none
                   | some (v, rest4) =>
                       match skipWs rest4 with
                       | '}' :: rest5 => some ([(String.mk key, v)], rest5)
                       | ',' :: rest5 =>
                           (parseJsonMembers fuel rest5).map
                             fun p => ((String.mk key, v) :: p.1, p.2)
                       | _ => none)
              | _ => none
      | _ => none

end

/-- The builtin `JSON.parse`, modelled on the grammar subset above: parse one value
and require only whitespace to remain; `none` models a thrown
`SyntaxError`. -/
def jsonParse (s : String) : Option Json :=
  match parseJsonValue (s.length + 1) s.toList with
  | some (j, rest) => if skipWs rest = [] then some j else none
  | none => none

/-- A value stored in an event object by the `getEvents` line callback:
the raw field text, or the `JSON.parse` of a non-empty `data` field. -/
inductive FieldValue where
  | str (s : String)
  | json (j : Json)
deriving Repr

/-- A JavaScript word character, `\w` in the field regular expression. -/
def isWordChar (c : Char) : Bool :=
  c.isAlpha || c.isDigit || c == '_'

/-- The comment test `/^:/.test(line)`: the first character is a colon. -/
def startsWithColon (line : String) : Bool :=
  match line.toList with
  | ':' :: _ => true
  | _ => false

/-- The field match `/^(\w+):\s*(.*)$/.exec(line)`: a non-empty run of
word characters, a colon, optional whitespace, then the value (the rest
of the line). -/
def execFieldLine (line : String) : Option (String × String) :=
  let cs := line.toList
  let key := cs.takeWhile isWordChar
  match key, cs.dropWhile isWordChar with
  | [], _ => none
  | _, ':' :: rest =>
      some (String.mk key, String.mk (rest.dropWhile fun c => c = ' ' ∨ c = '\t'))
  | _, _ => none

/-- JavaScript object assignment `event[key] = value`: replace the value
of an existing key in place, or append a new member. -/
def setField : List (String × FieldValue) → String → FieldValue →
    List (String × FieldValue)
  | [], k, v => [(k, v)]
  | (k0, v0) :: rest, k, v =>
      if k0 = k then (k0, v) :: rest else (k0, v0) :: setField rest k v

/-- State of the `getEvents` line callback: the event object being
accumulated and the events emitted so far (in order). -/
structure StreamParseState where
  event : List (String × FieldValue)
  emitted : List (List (String × FieldValue))
deriving Repr

/-- The line callback installed by `getEvents`: a blank line emits the
accumulated event when it has any fields and resets it; a line starting
with `:` is a comment (logged, ignored); a line failing the field match is
logged and skipped; otherwise the field is stored, with a non-empty `data`
value passed through `JSON.parse` — which throws (`Except.error`,
propagating out of the callback) when the value is not valid JSON. -/
def processLine (st : StreamParseState) (line : String) :
    Except String StreamParseState :=
  if line.length = 0 then
    Except.ok
      { event := [],
        emitted := if st.event.isEmpty then st.emitted else st.emitted ++ [st.event] }
  else if startsWithColon line then
    Except.ok st
  else
    match execFieldLine line with
    | none => Except.ok st
    | some (key, value) =>
        if key = "data" ∧ value ≠ "" then
          match jsonParse value with
          | some j => Except.ok { st with event := setField st.event key (FieldValue.json j) }
          | none => Except.error "SyntaxError: JSON.parse"
        else
          Except.ok { st with event := setField st.event key (FieldValue.str value) }

/-- Run the line callback over a list of lines, propagating a thrown
exception. -/
def processLines (st : StreamParseState) : List String → Except String StreamParseState
  | [] => Except.ok st
  | l :: ls =>
      match processLine st l with
      | Except.ok st2 => processLines st2 ls
      | Except.error e => Except.error e

/-- Whether the line callback throws on the given line. -/
def lineThrows (st : StreamParseState) (line : String) : Bool :=
  match processLine st line with
  | Except.error _ => true
  | Except.ok _ => false

lemma retryAfter_mono (st : ClientState) (now d : Int) :
    st.earliestRetry ≤ (retryAfter st now d).earliestRetry := by
  simp only [retryAfter]
  split
  · next h => simpa using le_of_lt h
  · exact le_refl _

lemma retryAfter_le_deadline (st : ClientState) (now d : Int) :
    now + d * 1000 ≤ (retryAfter st now d).earliestRetry := by
  simp only [retryAfter]
  split
  · simp
  · next h => simpa using le_of_not_lt h

lemma le_issueTime (st : ClientState) (now : Int) :
    st.earliestRetry ≤ issueTime st now := by
  simp only [issueTime]
  split
  · exact le_refl _
  · next h => exact le_of_not_lt h

/-- C6: the stored `earliestRetry` timestamp is monotonically
non-decreasing — a single `retryAfter` update never moves it backwards
(whatever the delay, even one whose deadline is in the past), nor does any
sequence of `retryAfter` updates — and every outbound appliance request
waits until at least that timestamp before issuing its attempt. -/
theorem earliestRetry_monotone :
    (∀ (st : ClientState) (now d : Int),
        st.earliestRetry ≤ (retryAfter st now d).earliestRetry)
    ∧ (∀ (us : List (Int × Int)) (st : ClientState),
        st.earliestRetry ≤
          (us.foldl (fun s u => retryAfter s u.1 u.2) st).earliestRetry)
    ∧ (∀ (st : ClientState) (now : Int), st.earliestRetry ≤ issueTime st now) := by
  refine ⟨retryAfter_mono, ?_, le_issueTime⟩
  intro us
  induction us with
  | nil => intro st; exact le_refl _
  | cons u us ih =>
      intro st
      exact le_trans (retryAfter_mono st u.1 u.2) (ih _)

/-- C1: an appliance-API error response whose error key is
`invalid_token` removes only the `accessToken` field of the stored
record: the `refreshToken`, `accessExpires` and `scopes` fields are
unchanged, the record stays saved, and the rest of the client state
(including `earliestRetry`) is untouched. -/
theorem invalid_token_clears_only_accessToken
    (st : ClientState) (now : Int) (e : ErrResponse) (r : AuthRecord)
    (hd : isTruthyStr e.error_description = false)
    (hk : e.errorKey = some "invalid_token")
    (hr : st.savedAuth = some r) :
    classifyStatusError st now e =
      ({ st with savedAuth := some { r with accessToken := none } },
       RawResult.thrown false) := by
  simp [classifyStatusError, hd, hk, tokenInvalidate, hr]

theorem invalid_token_clears_only_accessToken_witness :
    isTruthyStr (ErrResponse.mk none none (some "invalid_token") none).error_description = false
    ∧ (ErrResponse.mk none none (some "invalid_token") none).errorKey = some "invalid_token"
    ∧ (ClientState.mk (some (AuthRecord.mk (some "R") (some "A") 99 ["Monitor"]))
         ["Monitor"] 7).savedAuth = some (AuthRecord.mk (some "R") (some "A") 99 ["Monitor"])
    ∧ classifyStatusError
        (ClientState.mk (some (AuthRecord.mk (some "R") (some "A") 99 ["Monitor"])) ["Monitor"] 7)
        0 (ErrResponse.mk none none (some "invalid_token") none)
      = (ClientState.mk (some (AuthRecord.mk (some "R") none 99 ["Monitor"])) ["Monitor"] 7,
         RawResult.thrown false) :=
  ⟨rfl, rfl, rfl,
   invalid_token_clears_only_accessToken
     (ClientState.mk (some (AuthRecord.mk (some "R") (some "A") 99 ["Monitor"])) ["Monitor"] 7)
     0 (ErrResponse.mk none none (some "invalid_token") none)
     (AuthRecord.mk (some "R") (some "A") 99 ["Monitor"]) rfl rfl rfl⟩

/-- C2: an OAuth-token-endpoint error response with code `invalid_grant`
or `expired_token` discards the entire saved record (no `refreshToken`,
`accessToken` or `scopes` remain saved for the client id), and the
`authoriseClient` loop — after its `catch` block, which picks the 60 s
full-authorisation delay — restarts a full authorisation flow (the
`Authorizing` state) because no record is saved. -/
theorem invalid_grant_discards_record_and_restarts
    (st : ClientState) (now : Int) (e : ErrResponse)
    (hd : isTruthyStr e.error_description = true)
    (hk : e.errorCode = some "invalid_grant" ∨ e.errorCode = some "expired_token") :
    classifyStatusError st now e = (authInvalidate st, RawResult.thrown false)
    ∧ (classifyStatusError st now e).1.savedAuth = none
    ∧ authoriseCatch (classifyStatusError st now e).1
        = ((classifyStatusError st now e).1, 60)
    ∧ authoriseClientChoice (authoriseCatch (classifyStatusError st now e).1).1
        = AuthFlowChoice.fullAuthorization := by
  have h1 : classifyStatusError st now e = (authInvalidate st, RawResult.thrown false) := by
    rcases hk with hk | hk <;>
      · obtain ⟨ed, ec, ek, ra⟩ := e
        simp only at hd hk
        subst hk
        simp [classifyStatusError, hd]
  refine ⟨h1, ?_, ?_, ?_⟩ <;>
    simp [h1, authInvalidate, authoriseCatch, tokenInvalidate,
          authRetryDelaySeconds, authoriseClientChoice]

theorem invalid_grant_discards_record_and_restarts_witness :
    isTruthyStr (ErrResponse.mk (some "Refresh token rejected")
        (some "invalid_grant") none none).error_description = true
    ∧ (classifyStatusError
          (ClientState.mk (some (AuthRecord.mk (some "R") (some "A") 99 ["Monitor"]))
            ["Monitor"] 7)
          0 (ErrResponse.mk (some "Refresh token rejected") (some "invalid_grant") none none)
        = (authInvalidate
            (ClientState.mk (some (AuthRecord.mk (some "R") (some "A") 99 ["Monitor"]))
              ["Monitor"] 7),
           RawResult.thrown false)
       ∧ (classifyStatusError
            (ClientState.mk (some (AuthRecord.mk (some "R") (some "A") 99 ["Monitor"]))
              ["Monitor"] 7)
            0 (ErrResponse.mk (some "Refresh token rejected")
                (some "invalid_grant") none none)).1.savedAuth = none
       ∧ authoriseCatch (classifyStatusError
            (ClientState.mk (some (AuthRecord.mk (some "R") (some "A") 99 ["Monitor"]))
              ["Monitor"] 7)
            0 (ErrResponse.mk (some "Refresh token rejected")
                (some "invalid_grant") none none)).1
          = ((classifyStatusError
              (ClientState.mk (some (AuthRecord.mk (some "R") (some "A") 99 ["Monitor"]))
                ["Monitor"] 7)
              0 (ErrResponse.mk (some "Refresh token rejected")
                  (some "invalid_grant") none none)).1, 60)
       ∧ authoriseClientChoice (authoriseCatch (classifyStatusError
            (ClientState.mk (some (AuthRecord.mk (some "R") (some "A") 99 ["Monitor"]))
              ["Monitor"] 7)
            0 (ErrResponse.mk (some "Refresh token rejected")
                (some "invalid_grant") none none)).1).1
          = AuthFlowChoice.fullAuthorization) :=
  ⟨rfl,
   invalid_grant_discards_record_and_restarts
     (ClientState.mk (some (AuthRecord.mk (some "R") (some "A") 99 ["Monitor"])) ["Monitor"] 7)
     0 (ErrResponse.mk (some "Refresh token rejected") (some "invalid_grant") none none)
     rfl (Or.inl rfl)⟩

/-- C5: a client whose saved record holds a non-empty access token with
`accessExpires` still in the future gets an immediately resolved promise
from `waitUntilAuthorised` — the immediate branch performs no network
request and does not queue behind the authorisation state machine. -/
theorem waitUntilAuthorised_immediate
    (st : ClientState) (a : AuthRecord) (t : String) (now : Int)
    (ha : st.savedAuth = some a)
    (ht : a.accessToken = some t)
    (hne : t ≠ "")
    (he : now < a.accessExpires) :
    waitUntilAuthorised st now = WaitResult.immediate := by
  simp [waitUntilAuthorised, ha, isTruthyStr, ht, hne, he]

theorem waitUntilAuthorised_immediate_witness :
    (ClientState.mk (some (AuthRecord.mk (some "R") (some "T") 100 [])) [] 0).savedAuth
        = some (AuthRecord.mk (some "R") (some "T") 100 [])
    ∧ (AuthRecord.mk (some "R") (some "T") 100 []).accessToken = some "T"
    ∧ "T" ≠ ""
    ∧ (0 : Int) < (AuthRecord.mk (some "R") (some "T") 100 []).accessExpires
    ∧ waitUntilAuthorised
        (ClientState.mk (some (AuthRecord.mk (some "R") (some "T") 100 [])) [] 0) 0
      = WaitResult.immediate :=
  ⟨rfl, rfl, by decide, by decide,
   waitUntilAuthorised_immediate
     (ClientState.mk (some (AuthRecord.mk (some "R") (some "T") 100 [])) [] 0)
     (AuthRecord.mk (some "R") (some "T") 100 []) "T" 0 rfl rfl (by decide) (by decide)⟩

/-- C7 (refuting theorem for the code bug): when an event stream's
transport completes with an appliance-API error body whose key is `429`,
the `'complete'` handler of `requestStreamRaw` evaluates the undefined
variable `err`, so it raises a `ReferenceError`: the rate limiter is not
advanced (the state is returned unchanged), the retry-after header is
never read, and the outcome is never marked retryable. -/
theorem streamComplete_429_referenceError (st : ClientState) (sc : Int) :
    streamCompleteHandler st sc (some "429") = (st, StreamCompletion.jsReferenceError) := by
  rfl

/-- C3: a 429 appliance response carrying a `retry-after` header of `n`
seconds is classified as retryable, advances `earliestRetry` to at least
`n` seconds after the attempt, is not surfaced to the caller (the facade
loop simply continues with the remaining attempts), and any subsequent
attempt of any call is issued no earlier than `n` seconds after the 429
was processed. -/
theorem rate_limit_429_transparent_retry
    (st : ClientState) (now n : Int) (rest : List Attempt)
    (hTok : hasAccessToken st = true) :
    classifyStatusError st (issueTime st now)
        (ErrResponse.mk none none (some "429") (some n))
      = (retryAfter st (issueTime st now) n, RawResult.thrown true)
    ∧ issueTime st now + n * 1000
        ≤ (retryAfter st (issueTime st now) n).earliestRetry
    ∧ requestAppliancesRun st now
        (Attempt.err (ErrResponse.mk none none (some "429") (some n)) :: rest)
      = requestAppliancesRun (retryAfter st (issueTime st now) n) (issueTime st now) rest
    ∧ ∀ now2 : Int, issueTime st now + n * 1000
        ≤ issueTime (retryAfter st (issueTime st now) n) now2 := by
  have h1 : classifyStatusError st (issueTime st now)
      (ErrResponse.mk none none (some "429") (some n))
      = (retryAfter st (issueTime st now) n, RawResult.thrown true) := rfl
  refine ⟨h1, retryAfter_le_deadline st (issueTime st now) n, ?_, ?_⟩
  · simp only [requestAppliancesRun, hTok, if_true, h1]
  · intro now2
    exact le_trans (retryAfter_le_deadline st (issueTime st now) n)
      (le_issueTime (retryAfter st (issueTime st now) n) now2)

theorem rate_limit_429_transparent_retry_witness :
    hasAccessToken
      (ClientState.mk (some (AuthRecord.mk (some "R") (some "T") 100 [])) [] 0) = true
    ∧ (classifyStatusError
          (ClientState.mk (some (AuthRecord.mk (some "R") (some "T") 100 [])) [] 0)
          (issueTime
            (ClientState.mk (some (AuthRecord.mk (some "R") (some "T") 100 [])) [] 0) 0)
          (ErrResponse.mk none none (some "429") (some 5))
        = (retryAfter
            (ClientState.mk (some (AuthRecord.mk (some "R") (some "T") 100 [])) [] 0)
            (issueTime
              (ClientState.mk (some (AuthRecord.mk (some "R") (some "T") 100 [])) [] 0) 0)
            5,
           RawResult.thrown true)
       ∧ issueTime
            (ClientState.mk (some (AuthRecord.mk (some "R") (some "T") 100 [])) [] 0) 0
            + 5 * 1000
          ≤ (retryAfter
              (ClientState.mk (some (AuthRecord.mk (some "R") (some "T") 100 [])) [] 0)
              (issueTime
                (ClientState.mk (some (AuthRecord.mk (some "R") (some "T") 100 [])) [] 0) 0)
              5).earliestRetry
       ∧ requestAppliancesRun
            (ClientState.mk (some (AuthRecord.mk (some "R") (some "T") 100 [])) [] 0) 0
            (Attempt.err (ErrResponse.mk none none (some "429") (some 5)) :: [])
          = requestAppliancesRun
              (retryAfter
                (ClientState.mk (some (AuthRecord.mk (some "R") (some "T") 100 [])) [] 0)
                (issueTime
                  (ClientState.mk (some (AuthRecord.mk (some "R") (some "T") 100 [])) [] 0) 0)
                5)
              (issueTime
                (ClientState.mk (some (AuthRecord.mk (some "R") (some "T") 100 [])) [] 0) 0)
              []
       ∧ ∀ now2 : Int,
           issueTime
             (ClientState.mk (some (AuthRecord.mk (some "R") (some "T") 100 [])) [] 0) 0
             + 5 * 1000
           ≤ issueTime
               (retryAfter
                 (ClientState.mk (some (AuthRecord.mk (some "R") (some "T") 100 [])) [] 0)
                 (issueTime
                   (ClientState.mk (some (AuthRecord.mk (some "R") (some "T") 100 [])) [] 0) 0)
                 5)
               now2) :=
  ⟨rfl,
   rate_limit_429_transparent_retry
     (ClientState.mk (some (AuthRecord.mk (some "R") (some "T") 100 [])) [] 0)
     0 5 [] rfl⟩

lemma takeWhile_hyphen_append (x y : List Char) (hx : ∀ c ∈ x, c ≠ '-') :
    (x ++ '-' :: y).takeWhile (fun c => c != '-') = x
    ∧ (x ++ '-' :: y).dropWhile (fun c => c != '-') = '-' :: y := by
  induction x with
  | nil => simp
  | cons c cs ih =>
      have hc : c ≠ '-' := hx c (by simp)
      obtain ⟨h1, h2⟩ := ih fun a ha => hx a (by simp [ha])
      have hc2 : (c != '-') = true := by simpa using hc
      simp [List.takeWhile_cons, List.dropWhile_cons, hc2, h1, h2]

lemma execRowColumn_append (x y : List Char) (hx : x ≠ []) (hy : y ≠ [])
    (hx2 : ∀ c ∈ x, c ≠ '-') (hy2 : ∀ c ∈ y, c ≠ '-') :
    execRowColumn (String.mk (x ++ '-' :: y)) = some (String.mk x, String.mk y) := by
  obtain ⟨h1, h2⟩ := takeWhile_hyphen_append x y hx2
  have hany : (y.any fun c => c == '-') = false := by
    cases h : y.any fun c => c == '-'
    · rfl
    · rw [List.any_eq_true] at h
      obtain ⟨a, ha, haa⟩ := h
      exact absurd (by simpa using haa) (hy2 a ha)
  simp [execRowColumn, h1, h2, hx, hy, hany]

lemma hasScope_eq_of_exec_some (scopes : List String) (s row col : String)
    (hexec : execRowColumn s = some (row, col)) :
    hasScope scopes s
      = (scopes.contains s || scopes.contains row || scopes.contains col) := by
  unfold hasScope
  rw [hexec]
  cases h1 : scopes.contains s <;> cases h2 : scopes.contains row <;>
    cases h3 : scopes.contains col <;> simp_all

lemma hasScope_eq_of_exec_none (scopes : List String) (s : String)
    (hexec : execRowColumn s = none) :
    hasScope scopes s = scopes.contains s := by
  unfold hasScope
  rw [hexec]
  cases h1 : scopes.contains s <;> simp

/-- C4: `hasScope` is literal membership, extended on names of the
compound form row-column (two non-empty hyphen-free components joined by
one hyphen) by membership of the row or of the column alone; in
particular, for any granted set, `hasScope "Oven-Control"` is true
exactly when `"Oven-Control"`, `"Oven"` or `"Control"` is granted. -/
theorem hasScope_row_column
    (scopes : List String) (x y : List Char)
    (hx : x ≠ []) (hy : y ≠ [])
    (hx2 : ∀ c ∈ x, c ≠ '-') (hy2 : ∀ c ∈ y, c ≠ '-') :
    hasScope scopes (String.mk (x ++ '-' :: y))
      = (scopes.contains (String.mk (x ++ '-' :: y))
         || scopes.contains (String.mk x) || scopes.contains (String.mk y))
    ∧ hasScope scopes "Oven-Control"
      = (scopes.contains "Oven-Control" || scopes.contains "Oven"
         || scopes.contains "Control") :=
  ⟨hasScope_eq_of_exec_some scopes (String.mk (x ++ '-' :: y)) (String.mk x) (String.mk y)
     (execRowColumn_append x y hx hy hx2 hy2),
   hasScope_eq_of_exec_some scopes "Oven-Control" "Oven" "Control" rfl⟩

theorem hasScope_row_column_witness :
    (['O', 'v', 'e', 'n'] : List Char) ≠ []
    ∧ (['C', 'o', 'n', 't', 'r', 'o', 'l'] : List Char) ≠ []
    ∧ (∀ c ∈ (['O', 'v', 'e', 'n'] : List Char), c ≠ '-')
    ∧ (∀ c ∈ (['C', 'o', 'n', 't', 'r', 'o', 'l'] : List Char), c ≠ '-')
    ∧ (hasScope ["Oven"] (String.mk (['O', 'v', 'e', 'n'] ++ '-' :: ['C', 'o', 'n', 't', 'r', 'o', 'l']))
        = (List.contains ["Oven"] (String.mk (['O', 'v', 'e', 'n'] ++ '-' :: ['C', 'o', 'n', 't', 'r', 'o', 'l']))
           || List.contains ["Oven"] (String.mk ['O', 'v', 'e', 'n'])
           || List.contains ["Oven"] (String.mk ['C', 'o', 'n', 't', 'r', 'o', 'l']))
       ∧ hasScope ["Oven"] "Oven-Control"
        = (List.contains ["Oven"] "Oven-Control" || List.contains ["Oven"] "Oven"
           || List.contains ["Oven"] "Control")) :=
  ⟨by decide, by decide, by decide, by decide,
   hasScope_row_column ["Oven"] ['O', 'v', 'e', 'n'] ['C', 'o', 'n', 't', 'r', 'o', 'l']
     (by decide) (by decide) (by decide) (by decide)⟩

/-- C10: for a requested scope name containing two or more hyphens the
row-column decomposition never applies (the regular expression requires
exactly two non-empty hyphen-free components), so `hasScope` reduces to
literal membership of the full name. -/
theorem hasScope_multi_hyphen_literal_only
    (scopes : List String) (s : String)
    (h : 2 ≤ (s.toList.filter fun c => c == '-').length) :
    hasScope scopes s = scopes.contains s := by
  have hrow : ((s.toList.takeWhile fun c => c != '-').filter fun c => c == '-') = [] := by
    refine List.filter_eq_nil_iff.mpr fun a ha => ?_
    have := List.mem_takeWhile_imp ha
    simpa using this
  have h2 : 2 ≤ (((s.toList.dropWhile fun c => c != '-')).filter fun c => c == '-').length := by
    have hh := h
    rw [← List.takeWhile_append_dropWhile (p := fun c => c != '-') (l := s.toList),
        List.filter_append, List.length_append, hrow] at hh
    simpa using hh
  have hnone : execRowColumn s = none := by
    simp only [execRowColumn]
    split
    · next col heq =>
        rw [heq] at h2
        have hco : 1 ≤ (col.filter fun c => c == '-').length := by
          simp only [List.filter_cons] at h2
          simp at h2
          omega
        have hne : (col.filter fun c => c == '-') ≠ [] := by
          intro hh
          rw [hh] at hco
          simp at hco
        obtain ⟨a, ha⟩ := List.exists_mem_of_ne_nil _ hne
        rw [List.mem_filter] at ha
        have hany : (col.any fun c => c == '-') = true :=
          List.any_eq_true.mpr ⟨a, ha.1, ha.2⟩
        simp [hany]
    · rfl
  exact hasScope_eq_of_exec_none scopes s hnone

theorem hasScope_multi_hyphen_literal_only_witness :
    2 ≤ (("A-B-C" : String).toList.filter fun c => c == '-').length
    ∧ hasScope ["A-B-C"] "A-B-C" = List.contains ["A-B-C"] "A-B-C" :=
  ⟨by decide, hasScope_multi_hyphen_literal_only ["A-B-C"] "A-B-C" (by decide)⟩

/-- C8: feeding the `getEvents` line callback `event: NOTIFY`, then
`data: \x7b"k":1\x7d`, then a blank line emits exactly one event object with
the `data` field JSON-decoded; a blank line with no accumulated fields
emits nothing; and stopping before the terminating blank line leaves the
partial event unemitted (the abort path drops the local accumulator and
never emits). -/
theorem event_stream_two_field_event :
    processLines (StreamParseState.mk [] []) ["event: NOTIFY", "data: \x7b\"k\":1\x7d", ""]
      = Except.ok (StreamParseState.mk []
          [[("event", FieldValue.str "NOTIFY"),
            ("data", FieldValue.json (Json.obj [("k", Json.num 1)]))]])
    ∧ processLines (StreamParseState.mk [] []) [""]
      = Except.ok (StreamParseState.mk [] [])
    ∧ processLines (StreamParseState.mk [] []) ["event: NOTIFY", "data: \x7b\"k\":1\x7d"]
      = Except.ok (StreamParseState.mk
          [("event", FieldValue.str "NOTIFY"),
           ("data", FieldValue.json (Json.obj [("k", Json.num 1)]))] []) :=
  ⟨rfl, rfl, rfl⟩

/-- C9 (counterexample): the line callback does throw on some line — a
`data` field whose non-empty value `x` is not valid JSON makes
`JSON.parse` raise, refuting the claim that the parser never throws
regardless of the line's content. -/
theorem data_invalid_json_throws :
    processLine (StreamParseState.mk [] []) "data: x"
      = Except.error "SyntaxError: JSON.parse" := rfl

/-- C9 (amended): the line callback throws exactly on a line whose field
match yields the key `data` with a non-empty value rejected by
`JSON.parse`; every other line — blank, comment, malformed, or a
well-formed field — is handled without an exception (malformed lines are
logged and skipped). -/
theorem lineThrows_iff_bad_data_json (st : StreamParseState) (line : String) :
    lineThrows st line = true ↔
      ∃ v, execFieldLine line = some ("data", v) ∧ v ≠ "" ∧ jsonParse v = none := by
  constructor
  · intro hthrow
    unfold lineThrows at hthrow
    unfold processLine at hthrow
    by_cases h0 : line.length = 0
    · rw [if_pos h0] at hthrow
      simp at hthrow
    · rw [if_neg h0] at hthrow
      by_cases h1 : startsWithColon line = true
      · rw [if_pos h1] at hthrow
        simp at hthrow
      · rw [if_neg h1] at hthrow
        cases hm : execFieldLine line with
        | none =>
            rw [hm] at hthrow
            simp at hthrow
        | some kv =>
            obtain ⟨key, value⟩ := kv
            rw [hm] at hthrow
            by_cases hd : key = "data" ∧ value ≠ ""
            · cases hj : jsonParse value with
              | some j =>
                  simp [hd, hj] at hthrow
              | none =>
                  exact ⟨value, by rw [hd.1], hd.2, hj⟩
            · simp [hd] at hthrow
  · rintro ⟨v, hv1, hv2, hv3⟩
    have h0 : ¬ line.length = 0 := by
      intro h0
      have hnil : line.data = [] := List.length_eq_zero.mp h0
      simp [execFieldLine, String.toList, hnil] at hv1
    have h1 : ¬ startsWithColon line = true := by
      intro h1
      unfold startsWithColon at h1
      split at h1
      · next heq =>
          have hcw : isWordChar ':' = false := rfl
          have heq2 : line.data = ':' :: _ := heq
          simp [execFieldLine, String.toList, heq2, hcw] at hv1
      · simp at h1
    unfold lineThrows
    unfold processLine
    rw [if_neg h0, if_neg h1, hv1]
    simp [hv2, hv3]

end HomeConnect
